import Mathlib

/-!
Verification of the timetable-building core of `app/main.py`
(`extract_pdf_data_sync`, lines 49–155).

The transform consumes a raw table — an optional grid of optional cell
strings (`Option (List (List (Option String)))`), where `none` models the
extractor finding no table and `none` cells model null cells — and produces
the nested timetable structure together with the detected class name, or a
structured failure.  Python strings are modelled as Lean `String`
(logically a list of characters); the Python string primitives used by the
code (`strip`, `split`, `upper`, membership of a separator) are embedded as
executable functions on character lists below.
-/

namespace Main

/-- `startsWith pre l` : `pre` is a prefix of `l` (used to locate a
separator occurrence, as Python's `in`/`split` do). -/
def startsWith : List Char → List Char → Bool
  | [], _ => true
  | _ :: _, [] => false
  | a :: pre, b :: l => a == b && startsWith pre l

/-- Python `s.split(sep, 1)` when `sep` occurs in `s`: split at the first
occurrence of `sep`, returning the parts before and after.  `none` models
`sep not in s`. -/
def splitOnceL (sep : List Char) : List Char → Option (List Char × List Char)
  | [] => none
  | c :: cs =>
    if startsWith sep (c :: cs) then some ([], List.drop sep.length (c :: cs))
    else
      match splitOnceL sep cs with
      | some pr => some (c :: pr.1, pr.2)
      | none => none

/-- Python `s.split(ch)` for a single separator character (keeps empty
segments, as Python does). -/
def splitChar (ch : Char) : List Char → List (List Char)
  | [] => [[]]
  | c :: cs =>
    match splitChar ch cs with
    | [] => [[]]
    | h :: t => if c == ch then [] :: h :: t else (c :: h) :: t

/-- Remove the trailing run of characters satisfying `p`. -/
def stripEnd (p : Char → Bool) (l : List Char) : List Char :=
  (l.reverse.dropWhile p).reverse

/-- Python `s.strip(chars)` semantics: remove the leading and the trailing
run of characters satisfying `p`. -/
def stripChars (p : Char → Bool) (l : List Char) : List Char :=
  stripEnd p (l.dropWhile p)

/-- Python `s.strip()` : strip surrounding whitespace. -/
def pyStrip (s : String) : String :=
  String.mk (stripChars (fun c => c.isWhitespace) s.toList)

/-- Python `s.strip(".")` (line 72): strip the leading and trailing runs of
`.` characters. -/
def pyStripDots (s : String) : String :=
  String.mk (stripChars (fun c => c == '.') s.toList)

/-- Python `s.upper()` (ASCII case mapping suffices for the group letters). -/
def pyUpper (s : String) : String :=
  String.mk (s.toList.map Char.toUpper)

/-- Python `s.split(sep, 1)` wrapper on `String`; `none` when `sep` does not
occur in `s`. -/
def pySplitOnce (sep s : String) : Option (String × String) :=
  (splitOnceL sep.toList s.toList).map (fun pr => (String.mk pr.1, String.mk pr.2))

/-- Python `s.split("\n")`. -/
def pySplitLines (s : String) : List String :=
  (splitChar '\n' s.toList).map String.mk

/-- The fixed weekday list (line 41). -/
def weekdays : List String := ["Montag", "Dienstag", "Mittwoch", "Donnerstag", "Freitag"]

/-- A lesson entry (the `Entry` TypedDict, lines 43–47). -/
structure Entry where
  subject : String
  teacher : String
  room : String
  specialization : Nat
deriving DecidableEq, Repr

abbrev DayMap := List (String × List Entry)
abbrev Timetable := List (String × DayMap)

/-- Lines 93–107: split a compound field on the first `"--"`; both parts are
stripped; with no separator the whole (stripped) string is the first part
and the second part is empty. -/
def parseSepField (s : String) : String × String :=
  match pySplitOnce "--" s with
  | some pr => (pyStrip pr.1, pyStrip pr.2)
  | none => (pyStrip s, "")

/-- Lines 110–122: split `school_class` on the first `"/"`; the left part is
the base class, the right part (stripped, uppercased) selects the
specialization: `"A" → 2`, `"B" → 3`, anything else → `1`.  Without `"/"`
the base class is the whole string and the specialization is `1`. -/
def parseSpecialization (school_class : String) : String × Nat :=
  match pySplitOnce "/" school_class with
  | some pr =>
    let base_class := pyStrip pr.1
    let group := pyUpper (pyStrip pr.2)
    if group = "A" then (base_class, 2)
    else if group = "B" then (base_class, 3)
    else (base_class, 1)
  | none => (pyStrip school_class, 1)

/-- One block pair (lines 89–122): from the `class_subject` and
`teacher_room` lines produce the `base_class` token and the entry. -/
def parsePair (p : String × String) : String × Entry :=
  let cs := parseSepField p.1
  let tr := parseSepField p.2
  let bs := parseSpecialization cs.1
  (bs.1, { subject := cs.2, teacher := tr.1, room := tr.2, specialization := bs.2 })

/-- Lines 88–90: blocks are consumed in pairs `(blocks[j], blocks[j+1])`,
with a missing second element of the final pair defaulting to `""`. -/
def blockPairs : List String → List (String × String)
  | [] => []
  | [a] => [(a, "")]
  | a :: b :: rest => (a, b) :: blockPairs rest

/-- Lines 83–90: a null or whitespace-only cell contributes nothing;
otherwise the cell is stripped and split on newlines into block pairs. -/
def cellPairs (cell : Option String) : List (String × String) :=
  match cell with
  | none => []
  | some s =>
    if pyStrip s = "" then []
    else blockPairs (pySplitLines (pyStrip s))

/-- Python `{existing[spec], spec} == {2, 3}` together with the three field
equalities (lines 134–137): the merge condition of the scan. -/
def mergeCond (ex e : Entry) : Bool :=
  ex.subject == e.subject && ex.teacher == e.teacher && ex.room == e.room &&
    ((ex.specialization == 2 && e.specialization == 3) ||
     (ex.specialization == 3 && e.specialization == 2))

/-- Lines 131–148: scan the slot for the first mergeable entry; if found,
mutate its specialization to `1` and drop the new entry; otherwise append
the new entry at the end. -/
def insertEntry (l : List Entry) (e : Entry) : List Entry :=
  match l with
  | [] => [e]
  | x :: xs =>
    if mergeCond x e then { x with specialization := 1 } :: xs
    else x :: insertEntry xs e

/-- Python `m.setdefault(k, dflt)` followed by an in-place update `f` of the
value: update the value at `k` if present, else append `(k, f dflt)`. -/
def updateAssoc (k : String) (f : α → α) (dflt : α) : List (String × α) → List (String × α)
  | [] => [(k, f dflt)]
  | (k', v) :: rest =>
    if k' = k then (k', f v) :: rest else (k', v) :: updateAssoc k f dflt rest

/-- Ordered-dict lookup. -/
def lookupA (k : String) : List (String × α) → Option α
  | [] => none
  | (k', v) :: rest => if k' = k then some v else lookupA k rest

/-- Lines 128–148: get-or-create the day and hour containers and
merge-or-append the new entry into the slot. -/
def addEntry (tt : Timetable) (day hour : String) (e : Entry) : Timetable :=
  updateAssoc day (fun dm => updateAssoc hour (fun slot => insertEntry slot e) [] dm) [] tt

/-- The mutable state of the walk: the output dict and the class name. -/
structure BuildState where
  timetable : Timetable
  class_name : Option String
deriving Repr

/-- Lines 89–148, one block pair: record the class name if still unset and
merge-or-append the parsed entry. -/
def stepPair (day hour : String) (st : BuildState) (p : String × String) : BuildState :=
  let bc_e := parsePair p
  { timetable := addEntry st.timetable day hour bc_e.2,
    class_name := match st.class_name with
                  | some c => some c
                  | none => some bc_e.1 }

/-- Lines 76–84, one cell at 1-based column `i`: compute the day index; skip
the column when it is beyond the five weekdays; otherwise process the
cell's block pairs. -/
def stepCell (hour : String) (st : BuildState) (i : Nat) (cell : Option String) : BuildState :=
  match weekdays.get? ((i - 1) / 2) with
  | none => st
  | some day => (cellPairs cell).foldl (stepPair day hour) st

/-- `for i, cell in enumerate(row[1:], start=1)` (line 76). -/
def processCells (hour : String) (st : BuildState) (i : Nat) : List (Option String) → BuildState
  | [] => st
  | c :: cs => processCells hour (stepCell hour st i c) (i + 1) cs

/-- Lines 67–74: one row.  `row[0]` on a row with no cells raises
`IndexError` (modelled as `Except.error ()`, wrapped into the runtime
failure by `build`); a falsy first cell (null or empty) or an hour label
that strips to empty skips the row. -/
def stepRow (st : BuildState) (row : List (Option String)) : Except Unit BuildState :=
  match row with
  | [] => .error ()
  | first_cell :: rest =>
    match first_cell with
    | none => .ok st
    | some s =>
      if s = "" then .ok st
      else
        let hour := pyStripDots s
        if hour = "" then .ok st
        else .ok (processCells hour st 1 rest)

/-- The row loop (line 67), aborting at the first raising row. -/
def processRows (rows : List (List (Option String))) (st : BuildState) : Except Unit BuildState :=
  match rows with
  | [] => .ok st
  | r :: rs =>
    match stepRow st r with
    | .error e => .error e
    | .ok st' => processRows rs st'

/-- The two failure kinds the component signals: the `ValueError` of line 63
(spec: `NoTableDataError`) and the `RuntimeError` of line 153. -/
inductive BuildError where
  | noTableData (msg : String)
  | runtimeError (msg : String)
deriving DecidableEq, Repr

/-- Line 51: the output dict starts with all five weekdays mapped to empty
hour dicts. -/
def initTimetable : Timetable := weekdays.map (fun d => (d, []))

def initState : BuildState := { timetable := initTimetable, class_name := none }

/-- `extract_pdf_data_sync`'s core (lines 51–155) on an already-extracted
raw table: `none` input raises the no-table `ValueError`; rows `3:` are
walked; any exception during the walk is wrapped into the `RuntimeError`
of line 153. -/
def build (rawTable : Option (List (List (Option String)))) :
    Except BuildError (Timetable × Option String) :=
  match rawTable with
  | none => .error (.noTableData "No table found in the PDF.")
  | some table =>
    match processRows (table.drop 3) initState with
    | .error _ => .error (.runtimeError "Error processing the PDF file.")
    | .ok st => .ok (st.timetable, st.class_name)

/-!
## Event traces

To reason about the nested loops we flatten the traversal into its list of
"events": each processed block pair yields the 4-tuple
`(day, hour, base_class, entry)` in row, column, block order.  The event
functions below mirror the skipping logic of `stepRow`/`stepCell`/`cellPairs`
exactly; the factorisation lemmas prove that `build`'s output is determined
by this event list.
-/

abbrev Event := String × String × String × Entry

/-- Events of one cell at 1-based column `i`. -/
def cellEvents (hour : String) (i : Nat) (cell : Option String) : List Event :=
  match weekdays.get? ((i - 1) / 2) with
  | none => []
  | some day => (cellPairs cell).map (fun p => (day, hour, parsePair p))

/-- Events of the cells `row[1:]`, numbering from `i`. -/
def cellsEvents (hour : String) (i : Nat) : List (Option String) → List Event
  | [] => []
  | c :: cs => cellEvents hour i c ++ cellsEvents hour (i + 1) cs

/-- Events of one row (empty for the rows the loop skips; an empty row
raises before producing events, so it also has none). -/
def rowEvents : List (Option String) → List Event
  | [] => []
  | first_cell :: rest =>
    match first_cell with
    | none => []
    | some s =>
      if s = "" then []
      else
        let hour := pyStripDots s
        if hour = "" then [] else cellsEvents hour 1 rest

/-- Events of all processed rows, in order. -/
def tableEvents : List (List (Option String)) → List Event
  | [] => []
  | r :: rs => rowEvents r ++ tableEvents rs

/-- The entries an event list sends to the slot `(d, h)`, in order: the
slot's construction trace. -/
def eventsFor (d h : String) : List Event → List Entry
  | [] => []
  | ev :: rest =>
    if ev.1 = d ∧ ev.2.1 = h then ev.2.2.2 :: eventsFor d h rest
    else eventsFor d h rest

/-- Replay a slot trace: an absent slot stays absent under no events, and
each event merge-or-appends into the (created-on-first-use) list. -/
def applyEvents (os : Option (List Entry)) : List Entry → Option (List Entry)
  | [] => os
  | e :: rest => applyEvents (some (insertEntry (os.getD []) e)) rest

/-- Replay a whole event list against the timetable. -/
def addEvents (tt : Timetable) (es : List Event) : Timetable :=
  es.foldl (fun acc ev => addEntry acc ev.1 ev.2.1 ev.2.2.2) tt

/-- The entry list of the slot `(d, h)`, when present. -/
def lookupSlot (tt : Timetable) (d h : String) : Option (List Entry) :=
  match lookupA d tt with
  | none => none
  | some dm => lookupA h dm

/-- First-set-wins combination (the `class_name is None` guard). -/
def orFirst (a b : Option α) : Option α :=
  match a with
  | some x => some x
  | none => b

/-- The claimed slot invariant, as an executable check: no entry is followed
by another with identical subject, teacher and room whose specialization
forms the pair `{2, 3}` with it. -/
def noMergeablePairB : List Entry → Bool
  | [] => true
  | x :: xs => xs.all (fun b => !(mergeCond x b)) && noMergeablePairB xs

/-! ## Ordered-dict lemmas -/

theorem lookupA_updateAssoc_self (k : String) (f : α → α) (dflt : α) :
    ∀ l : List (String × α),
      lookupA k (updateAssoc k f dflt l) = some (f ((lookupA k l).getD dflt))
  | [] => by simp [updateAssoc, lookupA]
  | (k', v) :: rest => by
    by_cases h : k' = k
    · simp [updateAssoc, lookupA, h]
    · simp [updateAssoc, lookupA, h, lookupA_updateAssoc_self k f dflt rest]

theorem lookupA_updateAssoc_ne {k k₁ : String} (hk : k ≠ k₁) (f : α → α) (dflt : α) :
    ∀ l : List (String × α), lookupA k₁ (updateAssoc k f dflt l) = lookupA k₁ l
  | [] => by simp [updateAssoc, lookupA, hk]
  | (k', v) :: rest => by
    by_cases h : k' = k
    · subst h; simp [updateAssoc, lookupA, hk]
    · simp [updateAssoc, lookupA, h, lookupA_updateAssoc_ne hk f dflt rest]

theorem lookupSlot_addEntry_self (tt : Timetable) (d h : String) (e : Entry) :
    lookupSlot (addEntry tt d h e) d h
      = some (insertEntry ((lookupSlot tt d h).getD []) e) := by
  unfold lookupSlot addEntry
  rw [lookupA_updateAssoc_self]
  cases hl : lookupA d tt <;> simp [lookupA_updateAssoc_self, lookupA]

theorem lookupSlot_addEntry_ne (tt : Timetable) {d₀ h₀ d h : String} (e : Entry)
    (hne : ¬(d₀ = d ∧ h₀ = h)) :
    lookupSlot (addEntry tt d₀ h₀ e) d h = lookupSlot tt d h := by
  unfold lookupSlot addEntry
  by_cases hd : d₀ = d
  · subst hd
    have hh : h₀ ≠ h := fun hh => hne ⟨rfl, hh⟩
    rw [lookupA_updateAssoc_self]
    cases hl : lookupA d₀ tt <;> simp [lookupA_updateAssoc_ne hh, lookupA, hh]
  · rw [lookupA_updateAssoc_ne hd]

theorem addEvents_append (tt : Timetable) (a b : List Event) :
    addEvents tt (a ++ b) = addEvents (addEvents tt a) b :=
  List.foldl_append _ _ _ _

theorem lookupSlot_addEvents (d h : String) :
    ∀ (es : List Event) (tt : Timetable),
      lookupSlot (addEvents tt es) d h = applyEvents (lookupSlot tt d h) (eventsFor d h es)
  | [], tt => rfl
  | ev :: es, tt => by
    obtain ⟨a, b, bc, e⟩ := ev
    show lookupSlot (addEvents (addEntry tt a b e) es) d h = _
    rw [lookupSlot_addEvents d h es]
    by_cases hev : a = d ∧ b = h
    · obtain ⟨h1, h2⟩ := hev
      subst h1; subst h2
      simp only [eventsFor, if_pos (And.intro rfl rfl)]
      rw [lookupSlot_addEntry_self]
      rfl
    · simp only [eventsFor, if_neg hev]
      rw [lookupSlot_addEntry_ne tt e hev]

/-! ## First-value lemmas for the class name -/

theorem orFirst_none_right (a : Option α) : orFirst a none = a := by
  cases a <;> rfl

theorem orFirst_or_assoc (a b c : Option α) :
    orFirst (orFirst a b) c = orFirst a (orFirst b c) := by
  cases a <;> rfl

theorem append_head_orFirst (a b : List α) :
    (a ++ b).head? = orFirst a.head? b.head? := by
  cases a <;> rfl

/-! ## Factorisation of the loops into the event trace -/

theorem foldl_stepPair_timetable (day hour : String) :
    ∀ (ps : List (String × String)) (st : BuildState),
      (ps.foldl (stepPair day hour) st).timetable
        = addEvents st.timetable (ps.map (fun p => ((day, hour, parsePair p) : Event)))
  | [], _ => rfl
  | p :: ps, st => by
    show (ps.foldl (stepPair day hour) (stepPair day hour st p)).timetable = _
    rw [foldl_stepPair_timetable day hour ps]
    rfl

theorem foldl_stepPair_class (day hour : String) :
    ∀ (ps : List (String × String)) (st : BuildState),
      (ps.foldl (stepPair day hour) st).class_name
        = orFirst st.class_name (ps.map (fun p => (parsePair p).1)).head?
  | [], st => (orFirst_none_right _).symm
  | p :: ps, st => by
    show (ps.foldl (stepPair day hour) (stepPair day hour st p)).class_name = _
    rw [foldl_stepPair_class day hour ps]
    cases hc : st.class_name <;> simp [stepPair, orFirst, hc]

theorem stepCell_timetable (hour : String) (st : BuildState) (i : Nat) (cell : Option String) :
    (stepCell hour st i cell).timetable = addEvents st.timetable (cellEvents hour i cell) := by
  unfold stepCell cellEvents
  cases weekdays.get? ((i - 1) / 2) with
  | none => rfl
  | some day => rw [foldl_stepPair_timetable]

theorem stepCell_class (hour : String) (st : BuildState) (i : Nat) (cell : Option String) :
    (stepCell hour st i cell).class_name
      = orFirst st.class_name ((cellEvents hour i cell).map (fun ev => ev.2.2.1)).head? := by
  unfold stepCell cellEvents
  cases weekdays.get? ((i - 1) / 2) with
  | none => exact (orFirst_none_right _).symm
  | some day =>
    rw [foldl_stepPair_class, List.map_map]
    rfl

theorem processCells_timetable (hour : String) :
    ∀ (cs : List (Option String)) (i : Nat) (st : BuildState),
      (processCells hour st i cs).timetable = addEvents st.timetable (cellsEvents hour i cs)
  | [], _, _ => rfl
  | c :: cs, i, st => by
    show (processCells hour (stepCell hour st i c) (i + 1) cs).timetable = _
    rw [processCells_timetable hour cs (i + 1), stepCell_timetable]
    show _ = addEvents st.timetable (cellEvents hour i c ++ cellsEvents hour (i + 1) cs)
    rw [addEvents_append]

theorem processCells_class (hour : String) :
    ∀ (cs : List (Option String)) (i : Nat) (st : BuildState),
      (processCells hour st i cs).class_name
        = orFirst st.class_name ((cellsEvents hour i cs).map (fun ev => ev.2.2.1)).head?
  | [], _, st => (orFirst_none_right _).symm
  | c :: cs, i, st => by
    show (processCells hour (stepCell hour st i c) (i + 1) cs).class_name = _
    rw [processCells_class hour cs (i + 1), stepCell_class]
    show _ = orFirst st.class_name
      (((cellEvents hour i c ++ cellsEvents hour (i + 1) cs).map (fun ev => ev.2.2.1)).head?)
    rw [List.map_append, append_head_orFirst, orFirst_or_assoc]

theorem stepRow_ok (st : BuildState) (row : List (Option String)) (st' : BuildState)
    (h : stepRow st row = .ok st') :
    st'.timetable = addEvents st.timetable (rowEvents row) ∧
    st'.class_name = orFirst st.class_name ((rowEvents row).map (fun ev => ev.2.2.1)).head? := by
  cases row with
  | nil => exact absurd h (by simp [stepRow])
  | cons first_cell rest =>
    cases first_cell with
    | none =>
      simp only [stepRow, Except.ok.injEq] at h
      subst h
      exact ⟨rfl, (orFirst_none_right _).symm⟩
    | some s =>
      by_cases hs : s = ""
      · simp only [stepRow, if_pos hs, Except.ok.injEq] at h
        subst h
        simp only [rowEvents, if_pos hs]
        exact ⟨rfl, (orFirst_none_right _).symm⟩
      · by_cases hh : pyStripDots s = ""
        · simp only [stepRow, if_neg hs, if_pos hh, Except.ok.injEq] at h
          subst h
          simp only [rowEvents, if_neg hs, if_pos hh]
          exact ⟨rfl, (orFirst_none_right _).symm⟩
        · simp only [stepRow, if_neg hs, if_neg hh, Except.ok.injEq] at h
          subst h
          simp only [rowEvents, if_neg hs, if_neg hh]
          exact ⟨processCells_timetable _ _ _ _, processCells_class _ _ _ _⟩

theorem processRows_ok :
    ∀ (rows : List (List (Option String))) (st st' : BuildState),
      processRows rows st = .ok st' →
      st'.timetable = addEvents st.timetable (tableEvents rows) ∧
      st'.class_name = orFirst st.class_name ((tableEvents rows).map (fun ev => ev.2.2.1)).head?
  | [], st, st', h => by
    simp only [processRows, Except.ok.injEq] at h
    subst h
    exact ⟨rfl, (orFirst_none_right _).symm⟩
  | r :: rs, st, st', h => by
    revert h
    unfold processRows
    cases hr : stepRow st r with
    | error e => intro h; exact absurd h (by simp)
    | ok st₁ =>
      intro h
      obtain ⟨ht, hc⟩ := stepRow_ok st r st₁ hr
      obtain ⟨ht', hc'⟩ := processRows_ok rs st₁ st' h
      constructor
      · rw [ht', ht]
        show _ = addEvents st.timetable (rowEvents r ++ tableEvents rs)
        rw [addEvents_append]
      · rw [hc', hc]
        show _ = orFirst st.class_name
          (((rowEvents r ++ tableEvents rs).map (fun ev => ev.2.2.1)).head?)
        rw [List.map_append, append_head_orFirst, orFirst_or_assoc]

theorem build_ok {t : List (List (Option String))} {tt : Timetable} {cn : Option String}
    (h : build (some t) = .ok (tt, cn)) :
    tt = addEvents initTimetable (tableEvents (t.drop 3)) ∧
    cn = ((tableEvents (t.drop 3)).map (fun ev => ev.2.2.1)).head? := by
  have h' : (match processRows (t.drop 3) initState with
      | Except.error _ =>
          (Except.error (BuildError.runtimeError "Error processing the PDF file.")
            : Except BuildError (Timetable × Option String))
      | Except.ok st => Except.ok (st.timetable, st.class_name)) = Except.ok (tt, cn) := h
  revert h'
  cases hp : processRows (t.drop 3) initState with
  | error e => intro h'; exact absurd h' (by simp)
  | ok st =>
    intro h'
    simp only [Except.ok.injEq, Prod.mk.injEq] at h'
    obtain ⟨h1, h2⟩ := h'
    obtain ⟨ht, hc⟩ := processRows_ok _ _ _ hp
    exact ⟨h1 ▸ ht, h2 ▸ hc⟩

theorem lookupA_cons (k' : String) (v : α) (rest : List (String × α)) (k : String) :
    lookupA k ((k', v) :: rest) = if k' = k then some v else lookupA k rest := rfl

theorem lookupSlot_of_empties (d h : String) :
    ∀ tt : Timetable, (∀ pr ∈ tt, pr.2 = ([] : DayMap)) → lookupSlot tt d h = none
  | [], _ => rfl
  | (k, v) :: rest, hall => by
    have hv : v = [] := hall (k, v) (List.mem_cons_self _ _)
    by_cases hk : k = d
    · unfold lookupSlot
      rw [lookupA_cons, if_pos hk, hv]
      rfl
    · unfold lookupSlot
      rw [lookupA_cons, if_neg hk]
      exact lookupSlot_of_empties d h rest (fun pr hpr => hall pr (List.mem_cons_of_mem _ hpr))

theorem build_lookupSlot {t : List (List (Option String))} {tt : Timetable}
    {cn : Option String} (h : build (some t) = .ok (tt, cn)) (d hr : String) :
    lookupSlot tt d hr = applyEvents none (eventsFor d hr (tableEvents (t.drop 3))) := by
  obtain ⟨ht, _⟩ := build_ok h
  rw [ht, lookupSlot_addEvents, lookupSlot_of_empties d hr initTimetable (by decide)]

/-! ## Merge-scan lemmas -/

theorem mergeCond_spec_one_left (a b : Entry) (h : a.specialization = 1) :
    mergeCond a b = false := by
  simp [mergeCond, h]

theorem mergeCond_spec_one_right (a b : Entry) (h : b.specialization = 1) :
    mergeCond a b = false := by
  simp [mergeCond, h]

theorem mergeCond_same_spec (a b : Entry) (h : a.specialization = b.specialization) :
    mergeCond a b = false := by
  simp only [mergeCond, h]
  cases hb2 : b.specialization == 2 <;> cases hb3 : b.specialization == 3 <;> simp_all

theorem mem_insertEntry {b : Entry} :
    ∀ (l : List Entry) (e : Entry),
      b ∈ insertEntry l e → b ∈ l ∨ b = e ∨ b.specialization = 1
  | [], e, hb => by
    simp only [insertEntry, List.mem_singleton] at hb
    exact Or.inr (Or.inl hb)
  | x :: xs, e, hb => by
    by_cases hm : mergeCond x e
    · simp only [insertEntry, if_pos hm] at hb
      rcases List.mem_cons.mp hb with h1 | h2
      · exact Or.inr (Or.inr (by rw [h1]))
      · exact Or.inl (List.mem_cons_of_mem _ h2)
    · simp only [insertEntry, if_neg hm] at hb
      rcases List.mem_cons.mp hb with h1 | h2
      · exact Or.inl (h1 ▸ List.mem_cons_self _ _)
      · rcases mem_insertEntry xs e h2 with h | h | h
        · exact Or.inl (List.mem_cons_of_mem _ h)
        · exact Or.inr (Or.inl h)
        · exact Or.inr (Or.inr h)

theorem noMergeablePairB_insertEntry :
    ∀ (l : List Entry) (e : Entry),
      noMergeablePairB l = true → noMergeablePairB (insertEntry l e) = true
  | [], e, _ => by simp [insertEntry, noMergeablePairB]
  | x :: xs, e, hl => by
    simp only [noMergeablePairB, Bool.and_eq_true, List.all_eq_true] at hl
    obtain ⟨hx, hxs⟩ := hl
    by_cases hm : mergeCond x e
    · simp only [insertEntry, if_pos hm, noMergeablePairB, Bool.and_eq_true, List.all_eq_true]
      refine ⟨?_, hxs⟩
      intro b hb
      have h1 : mergeCond { x with specialization := 1 } b = false :=
        mergeCond_spec_one_left _ b rfl
      simp [h1]
    · simp only [insertEntry, if_neg hm, noMergeablePairB, Bool.and_eq_true, List.all_eq_true]
      refine ⟨?_, noMergeablePairB_insertEntry xs e hxs⟩
      intro b hb
      rcases mem_insertEntry xs e hb with h | h | h
      · exact hx b h
      · subst h; simp at hm; simp [hm]
      · have h1 : mergeCond x b = false := mergeCond_spec_one_right x b h
        simp [h1]

theorem applyEvents_noMergeable :
    ∀ (es : List Entry) (os : Option (List Entry)),
      (∀ s, os = some s → noMergeablePairB s = true) →
      ∀ l', applyEvents os es = some l' → noMergeablePairB l' = true
  | [], _, hos, l', h => hos l' h
  | e :: es, os, hos, l', h => by
    refine applyEvents_noMergeable es (some (insertEntry (os.getD []) e)) ?_ l' h
    intro s hs
    simp only [Option.some.injEq] at hs
    subst hs
    apply noMergeablePairB_insertEntry
    cases os with
    | none => rfl
    | some s0 => exact hos s0 rfl

theorem insertEntry_append_of :
    ∀ (l : List Entry) (e : Entry),
      (∀ x ∈ l, mergeCond x e = false) → insertEntry l e = l ++ [e]
  | [], _, _ => rfl
  | x :: xs, e, hl => by
    have hx : mergeCond x e = false := hl x (List.mem_cons_self _ _)
    simp only [insertEntry, hx, Bool.false_eq_true, if_false, List.cons_append,
      List.cons.injEq, true_and]
    exact insertEntry_append_of xs e (fun y hy => hl y (List.mem_cons_of_mem _ hy))

theorem applyEvents_same_spec :
    ∀ (cs acc : List Entry) (s : Nat),
      (∀ x ∈ acc, x.specialization = s) → (∀ x ∈ cs, x.specialization = s) →
      applyEvents (some acc) cs = some (acc ++ cs)
  | [], acc, _, _, _ => by simp [applyEvents]
  | e :: cs, acc, s, hacc, hcs => by
    have he : e.specialization = s := hcs e (List.mem_cons_self _ _)
    have hins : insertEntry acc e = acc ++ [e] :=
      insertEntry_append_of acc e (fun x hx => mergeCond_same_spec x e (by rw [hacc x hx, he]))
    show applyEvents (some (insertEntry acc e)) cs = _
    rw [hins]
    have h1 : ∀ x ∈ acc ++ [e], x.specialization = s := by
      intro x hx
      rcases List.mem_append.mp hx with h | h
      · exact hacc x h
      · rw [List.mem_singleton.mp h]; exact he
    have h2 : ∀ x ∈ cs, x.specialization = s := fun x hx => hcs x (List.mem_cons_of_mem _ hx)
    rw [applyEvents_same_spec cs (acc ++ [e]) s h1 h2]
    simp

/-! ## Failure characterisation -/

theorem build_some_eq (t : List (List (Option String))) :
    build (some t) = (match processRows (t.drop 3) initState with
      | .error _ => .error (.runtimeError "Error processing the PDF file.")
      | .ok st => .ok (st.timetable, st.class_name)) := rfl

theorem stepRow_ok_exists (st : BuildState) (c : Option String) (rest : List (Option String)) :
    ∃ st', stepRow st (c :: rest) = .ok st' := by
  cases c with
  | none => exact ⟨st, rfl⟩
  | some s =>
    by_cases hs : s = ""
    · exact ⟨st, by simp [stepRow, hs]⟩
    · by_cases hh : pyStripDots s = ""
      · exact ⟨st, by simp [stepRow, hs, hh]⟩
      · exact ⟨processCells (pyStripDots s) st 1 rest, by simp [stepRow, hs, hh]⟩

theorem processRows_error_iff :
    ∀ (rows : List (List (Option String))) (st : BuildState),
      processRows rows st = .error () ↔ [] ∈ rows
  | [], st => by simp [processRows]
  | r :: rs, st => by
    cases r with
    | nil => simp [processRows, stepRow]
    | cons c rest =>
      obtain ⟨st', hst⟩ := stepRow_ok_exists st c rest
      have hred : processRows ((c :: rest) :: rs) st = processRows rs st' := by
        show (match stepRow st (c :: rest) with
              | Except.error e => (Except.error e : Except Unit BuildState)
              | Except.ok st₁ => processRows rs st₁) = processRows rs st'
        rw [hst]
      rw [hred, processRows_error_iff rs st']
      simp

/-! ## Key-set lemmas -/

theorem updateAssoc_keys {k : String} (f : α → α) (dflt : α) :
    ∀ l : List (String × α),
      k ∈ l.map Prod.fst → (updateAssoc k f dflt l).map Prod.fst = l.map Prod.fst
  | [], h => absurd h (by simp)
  | (k', v) :: rest, h => by
    by_cases hk : k' = k
    · simp [updateAssoc, hk]
    · have hmem : k ∈ rest.map Prod.fst := by
        rw [List.map_cons] at h
        rcases List.mem_cons.mp h with h1 | h1
        · exact absurd h1.symm hk
        · exact h1
      simp [updateAssoc, hk, updateAssoc_keys f dflt rest hmem]

theorem addEntry_keys (tt : Timetable) (day hour : String) (e : Entry)
    (hd : day ∈ tt.map Prod.fst) :
    (addEntry tt day hour e).map Prod.fst = tt.map Prod.fst :=
  updateAssoc_keys _ _ tt hd

theorem addEvents_keys :
    ∀ (es : List Event) (tt : Timetable),
      (∀ ev ∈ es, ev.1 ∈ tt.map Prod.fst) →
      (addEvents tt es).map Prod.fst = tt.map Prod.fst
  | [], _, _ => rfl
  | ev :: es, tt, hall => by
    have hd : ev.1 ∈ tt.map Prod.fst := hall ev (List.mem_cons_self _ _)
    have hk := addEntry_keys tt ev.1 ev.2.1 ev.2.2.2 hd
    show (addEvents (addEntry tt ev.1 ev.2.1 ev.2.2.2) es).map Prod.fst = _
    have hall' : ∀ ev' ∈ es, ev'.1 ∈ (addEntry tt ev.1 ev.2.1 ev.2.2.2).map Prod.fst := by
      intro ev' hev'
      rw [hk]
      exact hall ev' (List.mem_cons_of_mem _ hev')
    rw [addEvents_keys es _ hall', hk]

theorem mem_of_getq : ∀ (l : List α) (n : Nat) (a : α), l.get? n = some a → a ∈ l
  | [], n, _, h => by cases n <;> cases h
  | x :: xs, 0, a, h => by
    simp only [List.get?, Option.some.injEq] at h
    exact h ▸ List.mem_cons_self _ _
  | x :: xs, n + 1, a, h =>
    List.mem_cons_of_mem _ (mem_of_getq xs n a h)

theorem cellEvents_day (hour : String) (i : Nat) (cell : Option String) :
    ∀ ev ∈ cellEvents hour i cell, ev.1 ∈ weekdays := by
  unfold cellEvents
  cases hg : weekdays.get? ((i - 1) / 2) with
  | none => intro ev hev; simp at hev
  | some day =>
    intro ev hev
    simp only [List.mem_map] at hev
    obtain ⟨p, _, hp⟩ := hev
    rw [← hp]
    exact mem_of_getq _ _ _ hg

theorem cellsEvents_day :
    ∀ (cells : List (Option String)) (hour : String) (i : Nat),
      ∀ ev ∈ cellsEvents hour i cells, ev.1 ∈ weekdays
  | [], _, _ => by intro ev hev; simp [cellsEvents] at hev
  | c :: cs, hour, i => by
    intro ev hev
    rcases List.mem_append.mp hev with h1 | h1
    · exact cellEvents_day hour i c ev h1
    · exact cellsEvents_day cs hour (i + 1) ev h1

theorem rowEvents_day (row : List (Option String)) :
    ∀ ev ∈ rowEvents row, ev.1 ∈ weekdays := by
  cases row with
  | nil => intro ev hev; simp [rowEvents] at hev
  | cons first_cell rest =>
    cases first_cell with
    | none => intro ev hev; simp [rowEvents] at hev
    | some s =>
      by_cases hs : s = ""
      · intro ev hev; simp [rowEvents, hs] at hev
      · by_cases hh : pyStripDots s = ""
        · intro ev hev; simp [rowEvents, hs, hh] at hev
        · intro ev hev
          simp only [rowEvents, if_neg hs, if_neg hh] at hev
          exact cellsEvents_day rest (pyStripDots s) 1 ev hev

theorem tableEvents_day :
    ∀ (rows : List (List (Option String))), ∀ ev ∈ tableEvents rows, ev.1 ∈ weekdays
  | [] => by intro ev hev; simp [tableEvents] at hev
  | r :: rs => by
    intro ev hev
    rcases List.mem_append.mp hev with h1 | h1
    · exact rowEvents_day r ev h1
    · exact tableEvents_day rs ev h1

/-! ## Stripping lemmas -/

theorem dropWhile_head_not (p : α → Bool) :
    ∀ (l : List α) (c : α), (l.dropWhile p).head? = some c → p c = false
  | [], c, h => by simp [List.dropWhile] at h
  | x :: xs, c, h => by
    cases hx : p x with
    | true =>
      have h1 : (x :: xs).dropWhile p = xs.dropWhile p := by simp [List.dropWhile, hx]
      rw [h1] at h
      exact dropWhile_head_not p xs c h
    | false =>
      have h1 : (x :: xs).dropWhile p = x :: xs := by simp [List.dropWhile, hx]
      rw [h1] at h
      simp only [List.head?_cons, Option.some.injEq] at h
      exact h ▸ hx

theorem takeWhile_all (p : α → Bool) :
    ∀ l : List α, ∀ c ∈ l.takeWhile p, p c = true
  | [] => by intro c hc; simp [List.takeWhile] at hc
  | x :: xs => by
    intro c hc
    cases hx : p x with
    | true =>
      have h1 : (x :: xs).takeWhile p = x :: xs.takeWhile p := by simp [List.takeWhile, hx]
      rw [h1] at hc
      rcases List.mem_cons.mp hc with h2 | h2
      · exact h2 ▸ hx
      · exact takeWhile_all p xs c h2
    | false =>
      have h1 : (x :: xs).takeWhile p = [] := by simp [List.takeWhile, hx]
      rw [h1] at hc
      simp at hc

theorem takeWhile_append_dropWhile_eq (p : α → Bool) :
    ∀ l : List α, l.takeWhile p ++ l.dropWhile p = l
  | [] => rfl
  | x :: xs => by
    cases hx : p x with
    | true => simp [List.takeWhile, List.dropWhile, hx, takeWhile_append_dropWhile_eq p xs]
    | false => simp [List.takeWhile, List.dropWhile, hx]

theorem reverse_getLast_head (l : List α) : l.reverse.getLast? = l.head? := by
  cases l with
  | nil => rfl
  | cons x xs => simp [List.getLast?_concat]

theorem stripChars_decomp (p : Char → Bool) (l : List Char) :
    ∃ pre suf, l = pre ++ stripChars p l ++ suf ∧
      (∀ c ∈ pre, p c = true) ∧ (∀ c ∈ suf, p c = true) ∧
      (∀ c, (stripChars p l).head? = some c → p c = false) ∧
      (∀ c, (stripChars p l).getLast? = some c → p c = false) := by
  refine ⟨l.takeWhile p, ((l.dropWhile p).reverse.takeWhile p).reverse, ?_, ?_, ?_, ?_, ?_⟩
  · have hm : l.dropWhile p
        = stripChars p l ++ ((l.dropWhile p).reverse.takeWhile p).reverse := by
      have h1 : (l.dropWhile p).reverse.takeWhile p ++ (l.dropWhile p).reverse.dropWhile p
          = (l.dropWhile p).reverse := takeWhile_append_dropWhile_eq p _
      calc l.dropWhile p = (l.dropWhile p).reverse.reverse := (List.reverse_reverse _).symm
        _ = ((l.dropWhile p).reverse.takeWhile p
              ++ (l.dropWhile p).reverse.dropWhile p).reverse := by rw [h1]
        _ = stripChars p l ++ ((l.dropWhile p).reverse.takeWhile p).reverse := by
              rw [List.reverse_append]; rfl
    calc l = l.takeWhile p ++ l.dropWhile p := (takeWhile_append_dropWhile_eq p l).symm
      _ = l.takeWhile p ++ (stripChars p l
            ++ ((l.dropWhile p).reverse.takeWhile p).reverse) := by rw [← hm]
      _ = l.takeWhile p ++ stripChars p l
            ++ ((l.dropWhile p).reverse.takeWhile p).reverse := by rw [List.append_assoc]
  · exact takeWhile_all p l
  · intro c hc
    exact takeWhile_all p _ c (List.mem_reverse.mp hc)
  · intro c hc
    have hrr : stripChars p l = ((l.dropWhile p).reverse.dropWhile p).reverse := rfl
    cases hsc : stripChars p l with
    | nil => rw [hsc] at hc; cases hc
    | cons x xs =>
      rw [hsc] at hc
      simp only [List.head?_cons, Option.some.injEq] at hc
      subst hc
      have hm : l.dropWhile p
          = stripChars p l ++ ((l.dropWhile p).reverse.takeWhile p).reverse := by
        have h1 : (l.dropWhile p).reverse.takeWhile p ++ (l.dropWhile p).reverse.dropWhile p
            = (l.dropWhile p).reverse := takeWhile_append_dropWhile_eq p _
        calc l.dropWhile p = (l.dropWhile p).reverse.reverse := (List.reverse_reverse _).symm
          _ = ((l.dropWhile p).reverse.takeWhile p
                ++ (l.dropWhile p).reverse.dropWhile p).reverse := by rw [h1]
          _ = stripChars p l ++ ((l.dropWhile p).reverse.takeWhile p).reverse := by
                rw [List.reverse_append]; rfl
      have hhead : (l.dropWhile p).head? = some x := by
        rw [hm, hsc]
        rfl
      exact dropWhile_head_not p l x hhead
  · intro c hc
    have hrr : stripChars p l = ((l.dropWhile p).reverse.dropWhile p).reverse := rfl
    rw [hrr, reverse_getLast_head] at hc
    exact dropWhile_head_not p _ c hc

theorem dropWhile_eq_self (p : α → Bool) (l : List α)
    (h : ∀ c, l.head? = some c → p c = false) : l.dropWhile p = l := by
  cases l with
  | nil => rfl
  | cons x xs =>
    have hx : p x = false := h x rfl
    simp [List.dropWhile, hx]

theorem dropWhile_idem (p : α → Bool) :
    ∀ l : List α, (l.dropWhile p).dropWhile p = l.dropWhile p
  | [] => rfl
  | x :: xs => by
    cases hx : p x with
    | true =>
      have h1 : (x :: xs).dropWhile p = xs.dropWhile p := by simp [List.dropWhile, hx]
      rw [h1]
      exact dropWhile_idem p xs
    | false =>
      have h1 : (x :: xs).dropWhile p = x :: xs := by simp [List.dropWhile, hx]
      rw [h1, h1]

theorem stripEnd_idem (p : Char → Bool) (x : List Char) :
    stripEnd p (stripEnd p x) = stripEnd p x := by
  unfold stripEnd
  rw [List.reverse_reverse, dropWhile_idem]

theorem stripChars_idem (p : Char → Bool) (l : List Char) :
    stripChars p (stripChars p l) = stripChars p l := by
  obtain ⟨pre, suf, _, _, _, hhead, _⟩ := stripChars_decomp p l
  show stripEnd p ((stripChars p l).dropWhile p) = stripChars p l
  rw [dropWhile_eq_self p _ hhead]
  show stripEnd p (stripEnd p (l.dropWhile p)) = stripEnd p (l.dropWhile p)
  exact stripEnd_idem p _

theorem pyStrip_idem (s : String) : pyStrip (pyStrip s) = pyStrip s := by
  show String.mk (stripChars (fun c => c.isWhitespace)
        (stripChars (fun c => c.isWhitespace) s.toList))
      = String.mk (stripChars (fun c => c.isWhitespace) s.toList)
  rw [stripChars_idem]

theorem cellPairs_strip (s : String) : cellPairs (some s) = cellPairs (some (pyStrip s)) := by
  show (if pyStrip s = "" then [] else blockPairs (pySplitLines (pyStrip s)))
      = (if pyStrip (pyStrip s) = "" then []
         else blockPairs (pySplitLines (pyStrip (pyStrip s))))
  rw [pyStrip_idem]

theorem hour_of_cellsEvents :
    ∀ (cells : List (Option String)) (hour : String) (i : Nat) (ev : Event),
      ev ∈ cellsEvents hour i cells → ev.2.1 = hour
  | [], _, _, ev => by intro h; simp [cellsEvents] at h
  | c :: cs, hour, i, ev => by
    intro h
    rcases List.mem_append.mp h with h1 | h1
    · revert h1
      unfold cellEvents
      cases weekdays.get? ((i - 1) / 2) with
      | none => intro h1; simp at h1
      | some day =>
        intro h1
        simp only [List.mem_map] at h1
        obtain ⟨p, _, hp⟩ := h1
        rw [← hp]
    · exact hour_of_cellsEvents cs hour (i + 1) ev h1

/-! ## Auxiliary failure lemmas for C3 -/

theorem build_some_ne_noTable (t : List (List (Option String))) :
    build (some t) ≠ .error (.noTableData "No table found in the PDF.") := by
  rw [build_some_eq]
  cases hp : processRows (t.drop 3) initState with
  | error e0 => simp
  | ok st => simp

theorem build_some_runtime_iff (t : List (List (Option String))) :
    build (some t) = .error (.runtimeError "Error processing the PDF file.")
      ↔ [] ∈ t.drop 3 := by
  rw [build_some_eq, ← processRows_error_iff (t.drop 3) initState]
  cases hp : processRows (t.drop 3) initState with
  | error e0 => cases e0; simp
  | ok st => simp

theorem build_some_error_forms (t : List (List (Option String))) :
    ∀ e, build (some t) = .error e →
      e = BuildError.noTableData "No table found in the PDF." ∨
      e = BuildError.runtimeError "Error processing the PDF file." := by
  rw [build_some_eq]
  cases hp : processRows (t.drop 3) initState with
  | error e0 =>
    intro e he
    simp only [Except.error.injEq] at he
    exact Or.inr he.symm
  | ok st => intro e he; simp at he

/-! ## The claims -/

/-- C1: in the timetable returned by `build`, no (day, hour) slot ever
contains two entries with identical (subject, teacher, room) whose
specializations form the pair `{2, 3}`: any such pair arising during
construction is collapsed into a single specialization-1 entry before the
list is returned. -/
theorem claim_C1 (t : List (List (Option String))) (tt : Timetable) (cn : Option String)
    (d h : String) (slot : List Entry)
    (hb : build (some t) = .ok (tt, cn)) (hs : lookupSlot tt d h = some slot) :
    noMergeablePairB slot = true := by
  rw [build_lookupSlot hb d h] at hs
  exact applyEvents_noMergeable _ none (fun s hs' => by cases hs') slot hs

/-- Witness for C1: a grid whose Montag/1 slot received a group-A and a
group-B block satisfies the invariant. -/
theorem claim_C1_witness :
    build (some [[], [], [], [some "1.", some "9B/A--Ch\nKl--5", some "9B/B--Ch\nKl--5"]])
      = .ok ([("Montag", [("1", [⟨"Ch", "Kl", "5", 1⟩])]), ("Dienstag", []),
              ("Mittwoch", []), ("Donnerstag", []), ("Freitag", [])], some "9B") ∧
    noMergeablePairB [⟨"Ch", "Kl", "5", 1⟩] = true :=
  ⟨rfl,
   claim_C1 [[], [], [], [some "1.", some "9B/A--Ch\nKl--5", some "9B/B--Ch\nKl--5"]]
     [("Montag", [("1", [⟨"Ch", "Kl", "5", 1⟩])]), ("Dienstag", []), ("Mittwoch", []),
       ("Donnerstag", []), ("Freitag", [])] (some "9B") "Montag" "1"
     [⟨"Ch", "Kl", "5", 1⟩] rfl rfl⟩

/-- C2: when exactly two blocks with identical subject, teacher and room and
specializations `{2, 3}` (in either order) fall into the same (day, hour)
slot, the output slot is exactly one entry with that subject, teacher and
room and specialization 1. -/
theorem claim_C2 (t : List (List (Option String))) (tt : Timetable) (cn : Option String)
    (d h : String) (e₁ e₂ : Entry)
    (hb : build (some t) = .ok (tt, cn))
    (hc : eventsFor d h (tableEvents (t.drop 3)) = [e₁, e₂])
    (hsub : e₁.subject = e₂.subject) (htea : e₁.teacher = e₂.teacher)
    (hroom : e₁.room = e₂.room)
    (hspec : (e₁.specialization = 2 ∧ e₂.specialization = 3) ∨
             (e₁.specialization = 3 ∧ e₂.specialization = 2)) :
    lookupSlot tt d h
      = some [{ subject := e₁.subject, teacher := e₁.teacher, room := e₁.room,
                specialization := 1 }] := by
  rw [build_lookupSlot hb d h, hc]
  have hm : mergeCond e₁ e₂ = true := by
    rcases hspec with ⟨h2, h3⟩ | ⟨h3, h2⟩ <;> simp [mergeCond, hsub, htea, hroom, h2, h3]
  show some (insertEntry (insertEntry [] e₁) e₂) = _
  rw [show insertEntry [] e₁ = [e₁] from rfl]
  simp [insertEntry, hm]

/-- Witness for C2: the spec scenario with `"10A/A--Bio\nJones--12"` and
`"10A/B--Bio\nJones--12"` in the two Montag columns. -/
theorem claim_C2_witness :
    eventsFor "Montag" "1" (tableEvents (List.drop 3
        [[], [], [], [some "1.", some "10A/A--Bio\nJones--12", some "10A/B--Bio\nJones--12"]]))
      = [⟨"Bio", "Jones", "12", 2⟩, ⟨"Bio", "Jones", "12", 3⟩] ∧
    lookupSlot [("Montag", [("1", [⟨"Bio", "Jones", "12", 1⟩])]), ("Dienstag", []),
        ("Mittwoch", []), ("Donnerstag", []), ("Freitag", [])] "Montag" "1"
      = some [⟨"Bio", "Jones", "12", 1⟩] :=
  ⟨rfl,
   claim_C2
     [[], [], [], [some "1.", some "10A/A--Bio\nJones--12", some "10A/B--Bio\nJones--12"]]
     [("Montag", [("1", [⟨"Bio", "Jones", "12", 1⟩])]), ("Dienstag", []), ("Mittwoch", []),
       ("Donnerstag", []), ("Freitag", [])] (some "10A") "Montag" "1"
     ⟨"Bio", "Jones", "12", 2⟩ ⟨"Bio", "Jones", "12", 3⟩
     rfl rfl rfl rfl rfl (Or.inl ⟨rfl, rfl⟩)⟩

/-- Counterexample to C3 as stated: a non-null grid containing a row with no
cells fails with the runtime error, so `NoTableDataError` is not the only
externally signaled failure. -/
theorem claim_C3_counterexample :
    build (some [[], [], [], []])
      = .error (.runtimeError "Error processing the PDF file.") := rfl

/-- C3 (amended): `build` fails with `NoTableDataError("No table found in
the PDF.")` iff the raw table is null; on a non-null grid the only other
signaled failure is the runtime error, raised exactly when some processed
row has no cells at all. -/
theorem claim_C3_amended (rt : Option (List (List (Option String)))) :
    (build rt = .error (.noTableData "No table found in the PDF.") ↔ rt = none) ∧
    (∀ t, rt = some t →
      (build rt = .error (.runtimeError "Error processing the PDF file.")
        ↔ [] ∈ t.drop 3)) ∧
    (∀ e, build rt = .error e →
      e = BuildError.noTableData "No table found in the PDF." ∨
      e = BuildError.runtimeError "Error processing the PDF file.") := by
  cases rt with
  | none =>
    refine ⟨⟨fun _ => rfl, fun _ => rfl⟩, ?_, ?_⟩
    · intro t ht; exact absurd ht (by simp)
    · intro e he
      simp only [build, Except.error.injEq] at he
      exact Or.inl he.symm
  | some t =>
    refine ⟨⟨fun hb => absurd hb (build_some_ne_noTable t), fun h => by cases h⟩, ?_, ?_⟩
    · intro t' ht'
      injection ht' with h
      subst h
      exact build_some_runtime_iff t
    · exact build_some_error_forms t

/-- Witness for C3 (amended): a grid with a processed empty row does fail
with the runtime error. -/
theorem claim_C3_amended_witness :
    build (some [[], [], [], [some "9", some "Q--W\nE--R"], []])
      = .error (.runtimeError "Error processing the PDF file.") :=
  ((claim_C3_amended (some [[], [], [], [some "9", some "Q--W\nE--R"], []])).2.1
    [[], [], [], [some "9", some "Q--W\nE--R"], []] rfl).mpr (by decide)

/-- Counterexample to C4 as stated: a row whose first cell is the
whitespace-only string `" "` is NOT skipped — it contributes an entry under
the hour label `" "`. -/
theorem claim_C4_counterexample :
    build (some [[], [], [], [some " ", some "10A--Mat\nSm--204"]])
      = .ok ([("Montag", [(" ", [⟨"Mat", "Sm", "204", 1⟩])]), ("Dienstag", []),
              ("Mittwoch", []), ("Donnerstag", []), ("Freitag", [])], some "10A") := rfl

/-- C4 (amended): a row of `rows[3:]` whose first cell is null, empty, or
consists only of `.` characters is skipped entirely: processing it changes
nothing and raises nothing.  (Whitespace-only first cells are processed,
and a row with no cells at all raises — see the counterexample and C3.) -/
theorem claim_C4_amended (c : Option String) (rest : List (Option String))
    (rs : List (List (Option String))) (st : BuildState)
    (hc : ∀ s, c = some s → pyStripDots s = "") :
    processRows ((c :: rest) :: rs) st = processRows rs st := by
  have hstep : stepRow st (c :: rest) = .ok st := by
    cases c with
    | none => rfl
    | some s =>
      have hd : pyStripDots s = "" := hc s rfl
      by_cases hs : s = ""
      · simp [stepRow, hs]
      · simp [stepRow, hs, hd]
  show (match stepRow st (c :: rest) with
        | Except.error e => (Except.error e : Except Unit BuildState)
        | Except.ok st' => processRows rs st') = processRows rs st
  rw [hstep]

/-- Witness for C4 (amended): a row with the dots-only hour cell `"..."`
contributes nothing. -/
theorem claim_C4_amended_witness :
    (∀ s, (some "..." : Option String) = some s → pyStripDots s = "") ∧
    processRows [[some "...", some "10A--Mat\nSm--204"]] initState
      = processRows [] initState :=
  ⟨fun s hs => by cases hs; rfl,
   claim_C4_amended (some "...") [some "10A--Mat\nSm--204"] [] initState
     (fun s hs => by cases hs; rfl)⟩

/-- Counterexample to C5 as stated: the first block parsed has the empty
base class (cell `"--Mat\nSm--204"`), so ClassName is set to `""` even
though a later block carries the non-empty base class `"10A"` — it is not
the first NON-empty base class token. -/
theorem claim_C5_counterexample :
    build (some [[], [], [], [some "1", some "--Mat\nSm--204", some "10A--Bio\nJo--1"]])
      = .ok ([("Montag", [("1", [⟨"Mat", "Sm", "204", 1⟩, ⟨"Bio", "Jo", "1", 1⟩])]),
              ("Dienstag", []), ("Mittwoch", []), ("Donnerstag", []), ("Freitag", [])],
             some "") ∧ (some "" : Option String) ≠ some "10A" :=
  ⟨rfl, by decide⟩

/-- C5 (amended): ClassName equals the base class of the very first block
encountered in row, column, block order — even when that base class is the
empty string — and is null exactly when no block at all is processed. -/
theorem claim_C5_amended (t : List (List (Option String))) (tt : Timetable)
    (cn : Option String) (hb : build (some t) = .ok (tt, cn)) :
    cn = ((tableEvents (t.drop 3)).map (fun ev => ev.2.2.1)).head? :=
  (build_ok hb).2

/-- Witness for C5 (amended) on a one-block grid. -/
theorem claim_C5_amended_witness :
    build (some [[], [], [], [some "1", some "7C--Eng\nMs--3"]])
      = .ok ([("Montag", [("1", [⟨"Eng", "Ms", "3", 1⟩])]), ("Dienstag", []),
              ("Mittwoch", []), ("Donnerstag", []), ("Freitag", [])], some "7C") ∧
    (some "7C" : Option String)
      = ((tableEvents (List.drop 3 [[], [], [], [some "1", some "7C--Eng\nMs--3"]])).map
          (fun ev => ev.2.2.1)).head? :=
  ⟨rfl,
   claim_C5_amended [[], [], [], [some "1", some "7C--Eng\nMs--3"]]
     [("Montag", [("1", [⟨"Eng", "Ms", "3", 1⟩])]), ("Dienstag", []), ("Mittwoch", []),
       ("Donnerstag", []), ("Freitag", [])] (some "7C") rfl⟩

/-- Counterexample to C6 as stated: the hour cell `"..1"` has no trailing
`.` characters, so per the claim the hour key would be `"..1"`; the code
strips the LEADING dots as well and keys the slot under `"1"`. -/
theorem claim_C6_counterexample :
    build (some [[], [], [], [some "..1", some "10A--Mat\nSm--204"]])
      = .ok ([("Montag", [("1", [⟨"Mat", "Sm", "204", 1⟩])]), ("Dienstag", []),
              ("Mittwoch", []), ("Donnerstag", []), ("Freitag", [])], some "10A") ∧
    lookupSlot [("Montag", [("1", [⟨"Mat", "Sm", "204", 1⟩])]), ("Dienstag", []),
        ("Mittwoch", []), ("Donnerstag", []), ("Freitag", [])] "Montag" "..1" = none :=
  ⟨rfl, rfl⟩

/-- C6 (amended): for every processed row the hour label used as the
timetable key equals the row's first cell with BOTH the leading and the
trailing run of `.` characters removed (and nothing else: the first cell
decomposes as dots ++ label ++ dots with the label neither starting nor
ending in a dot). -/
theorem claim_C6_amended (s : String) (rest : List (Option String)) (ev : Event)
    (hev : ev ∈ rowEvents (some s :: rest)) :
    ev.2.1 = pyStripDots s ∧
    ∃ pre suf, s.toList = pre ++ (pyStripDots s).toList ++ suf ∧
      (∀ c ∈ pre, c = '.') ∧ (∀ c ∈ suf, c = '.') ∧
      (∀ c, (pyStripDots s).toList.head? = some c → c ≠ '.') ∧
      (∀ c, (pyStripDots s).toList.getLast? = some c → c ≠ '.') := by
  refine ⟨?_, ?_⟩
  · by_cases hs : s = ""
    · rw [show rowEvents (some s :: rest) = [] by simp [rowEvents, hs]] at hev
      simp at hev
    · by_cases hh : pyStripDots s = ""
      · rw [show rowEvents (some s :: rest) = [] by simp [rowEvents, hs, hh]] at hev
        simp at hev
      · have hre : rowEvents (some s :: rest) = cellsEvents (pyStripDots s) 1 rest := by
          simp [rowEvents, hs, hh]
        rw [hre] at hev
        exact hour_of_cellsEvents rest (pyStripDots s) 1 ev hev
  · obtain ⟨pre, suf, hdec, hpre, hsuf, hhead, hlast⟩ :=
      stripChars_decomp (fun c => c == '.') s.toList
    refine ⟨pre, suf, hdec, ?_, ?_, ?_, ?_⟩
    · intro c hc; simpa using hpre c hc
    · intro c hc; simpa using hsuf c hc
    · intro c hc; simpa using hhead c hc
    · intro c hc; simpa using hlast c hc

/-- Witness for C6 (amended): the event of the row with hour cell `"2."`
carries the hour label `"2"`. -/
theorem claim_C6_amended_witness :
    ((("Montag", "2", "8D", (⟨"Ph", "Dr", "9", 1⟩ : Entry)) : Event)
        ∈ rowEvents (some "2." :: [some "8D--Ph\nDr--9"])) ∧
    ("2" : String) = pyStripDots "2." :=
  ⟨by decide,
   (claim_C6_amended "2." [some "8D--Ph\nDr--9"]
     ("Montag", "2", "8D", ⟨"Ph", "Dr", "9", 1⟩) (by decide)).1⟩

/-- C7: a raw table that is empty or has fewer than 4 rows builds normally
into the all-empty timetable — all five weekdays mapped to empty hour
maps — with a null class name. -/
theorem claim_C7 (t : List (List (Option String))) (ht : t.length < 4) :
    build (some t)
      = .ok ([("Montag", []), ("Dienstag", []), ("Mittwoch", []), ("Donnerstag", []),
              ("Freitag", [])], none) := by
  have hd : t.drop 3 = [] := List.drop_eq_nil_of_le (by omega)
  rw [build_some_eq, hd]
  rfl

/-- Witness for C7 at the empty table. -/
theorem claim_C7_witness :
    ([] : List (List (Option String))).length < 4 ∧
    build (some ([] : List (List (Option String))))
      = .ok ([("Montag", []), ("Dienstag", []), ("Mittwoch", []), ("Donnerstag", []),
              ("Freitag", [])], none) :=
  ⟨by decide, claim_C7 [] (by decide)⟩

/-- C8: blocks with identical specialization are never merged — when every
block falling into a slot has the same specialization (e.g. two duplicates
both at specialization 1), the slot's output list is exactly those entries
in order, each appended separately; only a `{2, 3}` pairing triggers a
merge. -/
theorem claim_C8 (t : List (List (Option String))) (tt : Timetable) (cn : Option String)
    (d h : String) (cs : List Entry) (s : Nat)
    (hb : build (some t) = .ok (tt, cn))
    (hc : eventsFor d h (tableEvents (t.drop 3)) = cs)
    (hne : cs ≠ []) (hall : ∀ x ∈ cs, x.specialization = s) :
    lookupSlot tt d h = some cs := by
  rw [build_lookupSlot hb d h, hc]
  cases cs with
  | nil => exact absurd rfl hne
  | cons e cs' =>
    show applyEvents (some (insertEntry [] e)) cs' = some (e :: cs')
    rw [show insertEntry [] e = [e] from rfl]
    have h1 : ∀ x ∈ [e], x.specialization = s := by
      intro x hx
      rw [List.mem_singleton.mp hx]
      exact hall e (List.mem_cons_self _ _)
    have h2 : ∀ x ∈ cs', x.specialization = s := fun x hx =>
      hall x (List.mem_cons_of_mem _ hx)
    rw [applyEvents_same_spec cs' [e] s h1 h2]
    rfl

/-- Witness for C8: two identical `"6A--Mu\nHr--2"` blocks in the two
Montag columns both appear, unmerged. -/
theorem claim_C8_witness :
    eventsFor "Montag" "3" (tableEvents (List.drop 3
        [[], [], [], [some "3", some "6A--Mu\nHr--2", some "6A--Mu\nHr--2"]]))
      = [⟨"Mu", "Hr", "2", 1⟩, ⟨"Mu", "Hr", "2", 1⟩] ∧
    lookupSlot [("Montag", [("3", [⟨"Mu", "Hr", "2", 1⟩, ⟨"Mu", "Hr", "2", 1⟩])]),
        ("Dienstag", []), ("Mittwoch", []), ("Donnerstag", []), ("Freitag", [])]
      "Montag" "3" = some [⟨"Mu", "Hr", "2", 1⟩, ⟨"Mu", "Hr", "2", 1⟩] :=
  ⟨rfl,
   claim_C8 [[], [], [], [some "3", some "6A--Mu\nHr--2", some "6A--Mu\nHr--2"]]
     [("Montag", [("3", [⟨"Mu", "Hr", "2", 1⟩, ⟨"Mu", "Hr", "2", 1⟩])]), ("Dienstag", []),
       ("Mittwoch", []), ("Donnerstag", []), ("Freitag", [])] (some "6A") "Montag" "3"
     [⟨"Mu", "Hr", "2", 1⟩, ⟨"Mu", "Hr", "2", 1⟩] 1 rfl rfl (by decide) (by decide)⟩

/-- C9: the key list of every successfully built timetable is exactly the
five fixed German weekday names, in their fixed insertion order, all
present even when empty. -/
theorem claim_C9 (t : List (List (Option String))) (tt : Timetable) (cn : Option String)
    (hb : build (some t) = .ok (tt, cn)) : tt.map Prod.fst = weekdays := by
  obtain ⟨ht, _⟩ := build_ok hb
  have hkeys : initTimetable.map Prod.fst = weekdays := rfl
  have hin : ∀ ev ∈ tableEvents (t.drop 3), ev.1 ∈ initTimetable.map Prod.fst := by
    intro ev hev
    rw [hkeys]
    exact tableEvents_day _ ev hev
  rw [ht, addEvents_keys _ _ hin, hkeys]

/-- Witness for C9 on a one-entry grid. -/
theorem claim_C9_witness :
    build (some [[], [], [], [some "4", some "5B--Ku\nFr--8"]])
      = .ok ([("Montag", [("4", [⟨"Ku", "Fr", "8", 1⟩])]), ("Dienstag", []),
              ("Mittwoch", []), ("Donnerstag", []), ("Freitag", [])], some "5B") ∧
    ([("Montag", [("4", [(⟨"Ku", "Fr", "8", 1⟩ : Entry)])]), ("Dienstag", []),
        ("Mittwoch", []), ("Donnerstag", []), ("Freitag", [])] : Timetable).map Prod.fst
      = weekdays :=
  ⟨rfl,
   claim_C9 [[], [], [], [some "4", some "5B--Ku\nFr--8"]]
     [("Montag", [("4", [⟨"Ku", "Fr", "8", 1⟩])]), ("Dienstag", []), ("Mittwoch", []),
       ("Donnerstag", []), ("Freitag", [])] (some "5B") rfl⟩

/-- C10: a cell produces exactly the same events as the cell with its
surrounding whitespace (including leading and trailing newlines) removed:
the cell text is stripped before being split into blocks, so outer
whitespace never creates an empty block or a phantom entry. -/
theorem claim_C10 (hour : String) (i : Nat) (s : String) :
    cellEvents hour i (some s) = cellEvents hour i (some (pyStrip s)) := by
  unfold cellEvents
  cases weekdays.get? ((i - 1) / 2) with
  | none => rfl
  | some day => rw [cellPairs_strip]

end Main
